import Mathlib

/-!
# https-auto-proxy: a verification development

A shallow embedding of `https-auto-proxy.go` (the proxy authentication gate
`authCheck`, the two request handlers `handleTunneling` and `handleHTTP`, the
header relay `copyHeader`, the start-up helper `getEnvOrFail` and the
certificate host policy `hostPolicy` of `main`), followed by theorems about it.

Conventions of the embedding.

* A Go `string` is a sequence of bytes.  It is represented by `GoString`, a list
  of characters in which every character stands for one byte; literals of the
  program are written `"...".toList`.
* The functions of the Go standard library that the program calls
  (`strings.SplitN`, `strings.Split`, `strings.ToLower`,
  `base64.StdEncoding.DecodeString`, the methods of `http.Header`,
  `http.Error`, the methods of `http.ResponseWriter`) are given by executable
  definitions that follow the library's documented behaviour.
* Calls that reach outside the process (`os.Getenv`, `net.DialTimeout`,
  `Hijack`, `RoundTrip`) are modelled by passing their outcome as an argument;
  the calls a handler makes are recorded, in program order, in a list of
  `Effect`s.
-/

namespace HttpsAutoProxy

/-- A Go string: a sequence of bytes, each written as one character. -/
abbrev GoString := List Char

/-! ## package strings -/

/-- Splits `s` around the first occurrence of the byte `sep`: `cut sep s` is
`some (before, after)` when `sep` occurs in `s` and `none` otherwise (the
`strings.Index` step of Go's `genSplit`). -/
def cut (sep : Char) : GoString → Option (GoString × GoString)
  | [] => none
  | c :: t =>
    if c = sep then some ([], t)
    else
      match cut sep t with
      | none => none
      | some (a, b) => some (c :: a, b)

/-- The function `strings.SplitN(s, sep, n)` for a one-byte separator and `n ≥ 0`: at most
`n` substrings, the last one being the unsplit remainder; `n = 0` gives the
empty slice. -/
def SplitN (s : GoString) (sep : Char) : Nat → List GoString
  | 0 => []
  | 1 => [s]
  | n + 2 =>
    match cut sep s with
    | none => [s]
    | some (a, b) => a :: SplitN b sep (n + 1)

/-- The function `strings.Split(s, sep)` for a one-byte separator: all substrings of `s`
between occurrences of `sep`; never empty, and `Split "" sep = [""]`. -/
def Split (s : GoString) (sep : Char) : List GoString :=
  match s with
  | [] => [[]]
  | c :: t =>
    if c = sep then [] :: Split t sep
    else
      match Split t sep with
      | [] => [[c]]
      | h :: r => (c :: h) :: r

/-- Lower-cases one ASCII letter, as the ASCII fast path of `strings.ToLower`
does (`c += 'a' - 'A'` for `'A' ≤ c ≤ 'Z'`). -/
def asciiLower (c : Char) : Char :=
  if 65 ≤ c.toNat ∧ c.toNat ≤ 90 then Char.ofNat (c.toNat + 32) else c

/-- The function `strings.ToLower(s)`.  When every byte of `s` is ASCII (`< utf8.RuneSelf`,
i.e. below 128) the result is `s` with each of `A`..`Z` replaced by its lower
case letter.  Otherwise Go returns `strings.Map(unicode.ToLower, s)`, which
depends on the Unicode case tables; that part is the argument `unicodeLower`,
about which nothing is assumed. -/
def ToLower (unicodeLower : GoString → GoString) (s : GoString) : GoString :=
  if s.all (fun c => decide (c.toNat < 128)) then s.map asciiLower else unicodeLower s

/-- Go slice indexing `a[i]`.  Every use in the program is guarded by a test on
`len(a)`, so the default is never returned on a guarded path. -/
def idx (a : List GoString) (i : Nat) : GoString := a.getD i []

/-! ## package encoding/base64 -/

/-- The value of a character of the standard base64 alphabet
(`A`-`Z`, `a`-`z`, `0`-`9`, `+`, `/`), or `none` for any other byte. -/
def b64val (c : Char) : Option Nat :=
  let n := c.toNat
  if 65 ≤ n ∧ n ≤ 90 then some (n - 65)
  else if 97 ≤ n ∧ n ≤ 122 then some (n - 97 + 26)
  else if 48 ≤ n ∧ n ≤ 57 then some (n - 48 + 52)
  else if n = 43 then some 62
  else if n = 47 then some 63
  else none

/-- Decodes a sequence of base64 quanta (`decodeQuantum`): full groups of four
alphabet characters give three bytes each; the last group may be `xx==` (one
byte) or `xxx=` (two bytes); anything else is corrupt input. -/
def decodeQuanta : GoString → Option GoString
  | [] => some []
  | a :: b :: c :: d :: rest =>
    match b64val a, b64val b with
    | some x, some y =>
      if c = '=' ∧ d = '=' ∧ rest = [] then
        some [Char.ofNat ((x * 4 + y / 16) % 256)]
      else
        match b64val c with
        | none => none
        | some z =>
          if d = '=' ∧ rest = [] then
            some [Char.ofNat ((x * 4 + y / 16) % 256), Char.ofNat ((y * 16 + z / 4) % 256)]
          else
            match b64val d, decodeQuanta rest with
            | some w, some out =>
              some (Char.ofNat ((x * 4 + y / 16) % 256) ::
                    Char.ofNat ((y * 16 + z / 4) % 256) ::
                    Char.ofNat ((z * 64 + w) % 256) :: out)
            | _, _ => none
    | _, _ => none
  | _ => none

/-- The function `base64.StdEncoding.DecodeString(s)`: standard alphabet, padding
required, carriage returns and line feeds ignored; `none` stands for a non-nil
error (`CorruptInputError`). -/
def DecodeString (s : GoString) : Option GoString :=
  decodeQuanta (s.filter (fun c => decide (c ≠ '\r' ∧ c ≠ '\n')))

/-! ## package net/http: headers -/

/-- A Go `http.Header`, i.e. `map[string][]string`, as an association list; the
list order is the order in which `range` visits the keys. -/
abbrev Header := List (GoString × List GoString)

/-- Map indexing `h[k]` (the nil slice when `k` is missing). -/
def Header.lookup (h : Header) (k : GoString) : List GoString :=
  match h with
  | [] => []
  | (k', vs) :: t => if k' = k then vs else Header.lookup t k

/-- Map assignment `h[k] = vs`. -/
def Header.store (h : Header) (k : GoString) (vs : List GoString) : Header :=
  match h with
  | [] => [(k, vs)]
  | (k', vs') :: t => if k' = k then (k, vs) :: t else (k', vs') :: Header.store t k vs

/-- The table `validHeaderFieldByte` of `net/textproto`: the token characters of
RFC 7230 (letters, digits and the punctuation that may appear in a field name). -/
def validHeaderFieldByte (c : Char) : Bool :=
  let n := c.toNat
  decide ((48 ≤ n ∧ n ≤ 57) ∨ (65 ≤ n ∧ n ≤ 90) ∨ (97 ≤ n ∧ n ≤ 122) ∨
    n = 33 ∨ n = 35 ∨ n = 36 ∨ n = 37 ∨ n = 38 ∨ n = 39 ∨ n = 42 ∨ n = 43 ∨
    n = 45 ∨ n = 46 ∨ n = 94 ∨ n = 95 ∨ n = 96 ∨ n = 124 ∨ n = 126)

/-- The case pass of `canonicalMIMEHeaderKey`: the first letter and every letter
after a hyphen is made upper case, every other letter lower case. -/
def canonCase (upper : Bool) : GoString → GoString
  | [] => []
  | c :: t =>
    let n := c.toNat
    let c' :=
      if upper = true ∧ 97 ≤ n ∧ n ≤ 122 then Char.ofNat (n - 32)
      else if upper = false ∧ 65 ≤ n ∧ n ≤ 90 then Char.ofNat (n + 32)
      else c
    c' :: canonCase (decide (c' = '-')) t

/-- The function `textproto.CanonicalMIMEHeaderKey(s)`: a key containing a byte that is
not a valid header field byte is returned unchanged; any other key is put in
canonical case. -/
def CanonicalMIMEHeaderKey (s : GoString) : GoString :=
  if s.all validHeaderFieldByte then canonCase true s else s

/-- The method `Header.Get(key)`: the first value of the canonical key, or `""`. -/
def Header.Get (h : Header) (key : GoString) : GoString :=
  (h.lookup (CanonicalMIMEHeaderKey key)).headD []

/-- The method `Header.Set(key, value)`: `h[canonical key] = []string{value}`. -/
def Header.Set (h : Header) (key value : GoString) : Header :=
  h.store (CanonicalMIMEHeaderKey key) [value]

/-- The method `Header.Add(key, value)`: `h[canonical key] = append(h[canonical key], value)`. -/
def Header.Add (h : Header) (key value : GoString) : Header :=
  h.store (CanonicalMIMEHeaderKey key) (h.lookup (CanonicalMIMEHeaderKey key) ++ [value])

/-- The part of an `*http.Request` that the program reads. -/
structure Request where
  /-- The request method of `r.Method`. -/
  Method : GoString
  /-- The target authority of `r.Host`. -/
  Host : GoString
  /-- The request headers of `r.Header`. -/
  Header : Header

/-! ## authCheck -/

/-- The rejection reason of line 27. -/
def msgAuthRequired : GoString := "Basic authorization required".toList

/-- The rejection reason of line 32. -/
def msgInvalidHeader : GoString := "Invalid Proxy-Authorization header".toList

/-- The rejection reason of line 49. -/
def msgNoMatch : GoString := "Login and/or password doesn't match".toList

/-- The body of the loop of `authCheck` (lines 37-46) for one entry `userPass`:
`true` when the body executes `return ""`. -/
def entryAccepts (loginPair : List GoString) (userPass : GoString) : Bool :=
  let pair := Split userPass ':'
  if pair.length = 1 then
    decide (loginPair.length = 1 ∧ idx loginPair 0 = idx pair 0)
  else
    decide (loginPair.length = 2 ∧ idx loginPair 0 = idx pair 0 ∧ idx loginPair 1 = idx pair 1)

/-- The loop of `authCheck` (lines 36-49) over the entries still to visit:
returns `""` at the first entry whose body returns, and the mismatch reason
when the range is exhausted. -/
def authLoop (loginPair : List GoString) : List GoString → GoString
  | [] => msgNoMatch
  | userPass :: rest =>
    if entryAccepts loginPair userPass = true then [] else authLoop loginPair rest

/-- The function `authCheck(r)`.  `authVar` is the value `os.Getenv("PROXY_AUTH")` has when
the function runs; the result `""` means authorized, any other result is the
rejection reason. -/
def authCheck (unicodeLower : GoString → GoString) (authVar : GoString) (r : Request) :
    GoString :=
  if authVar.length = 0 then []
  else
    let authHeader := SplitN (r.Header.Get "Proxy-Authorization".toList) ' ' 2
    if authHeader.length ≠ 2 ∨ ToLower unicodeLower (idx authHeader 0) ≠ "basic".toList then
      msgAuthRequired
    else
      match DecodeString (idx authHeader 1) with
      | none => msgInvalidHeader
      | some payload =>
        let loginPair := SplitN payload ':' 2
        authLoop loginPair (Split authVar ';')

/-- A request whose only header is `Proxy-Authorization: v`. -/
def requestWithAuth (method host v : GoString) : Request :=
  { Method := method, Host := host, Header := [("Proxy-Authorization".toList, [v])] }

/-- A request without any header. -/
def requestNoAuth (method host : GoString) : Request :=
  { Method := method, Host := host, Header := [] }

/-! ## package net/http: response writer -/

/-- The state of an `http.ResponseWriter` as the standard server implements it. -/
structure ResponseWriter where
  /-- The header map returned by `w.Header()`. -/
  header : Header
  /-- Every call of `WriteHeader` so far, in call order: the status code passed
  and the header map at that moment.  The first element is the status line and
  header block the client receives; the server ignores each later call
  (a superfluous `WriteHeader`). -/
  wrote : List (Nat × Header)
  /-- The bytes written to the response body. -/
  body : GoString
  deriving DecidableEq

/-- The writer a handler is called with: nothing set, nothing written. -/
def ResponseWriter.fresh : ResponseWriter := { header := [], wrote := [], body := [] }

/-- The method `w.WriteHeader(code)`. -/
def ResponseWriter.WriteHeader (w : ResponseWriter) (code : Nat) : ResponseWriter :=
  { w with wrote := w.wrote ++ [(code, w.header)] }

/-- The method `w.Write(b)`: sends `WriteHeader(200)` first when no header was written yet. -/
def ResponseWriter.Write (w : ResponseWriter) (b : GoString) : ResponseWriter :=
  let w1 := if w.wrote.isEmpty then w.WriteHeader 200 else w
  { w1 with body := w1.body ++ b }

/-- The status code the client receives: the code of the first `WriteHeader`. -/
def ResponseWriter.status (w : ResponseWriter) : Option Nat :=
  w.wrote.head?.map Prod.fst

/-- The header block the client receives: the header map at the first `WriteHeader`. -/
def ResponseWriter.sentHeader (w : ResponseWriter) : Option Header :=
  w.wrote.head?.map Prod.snd

/-- The status codes passed to `WriteHeader`, in call order. -/
def ResponseWriter.codes (w : ResponseWriter) : List Nat :=
  w.wrote.map Prod.fst

/-- The constant `http.StatusOK`. -/
def StatusOK : Nat := 200
/-- The constant `http.StatusProxyAuthRequired`. -/
def StatusProxyAuthRequired : Nat := 407
/-- The constant `http.StatusInternalServerError`. -/
def StatusInternalServerError : Nat := 500
/-- The constant `http.StatusServiceUnavailable`. -/
def StatusServiceUnavailable : Nat := 503

/-- The function `http.Error(w, error, code)`: sets the content type to plain text, sets
`X-Content-Type-Options: nosniff`, calls `WriteHeader(code)` and prints the
message followed by a newline (`fmt.Fprintln`). -/
def Error (w : ResponseWriter) (error : GoString) (code : Nat) : ResponseWriter :=
  let h1 := w.header.Set "Content-Type".toList "text/plain; charset=utf-8".toList
  let h2 := h1.Set "X-Content-Type-Options".toList "nosniff".toList
  let w1 := { w with header := h2 }
  let w2 := w1.WriteHeader code
  w2.Write (error ++ ['\n'])

/-! ## The world outside the process -/

/-- A network connection (`net.Conn`), named by a number.  A variable of
interface type that may be nil is an `Option Conn`, with `none` for nil. -/
abbrev Conn := Nat

/-- The outcome of a library call returning `(value, error)`: a value with a nil
error, or a non-nil error with its text (`err.Error()`). -/
inductive Res (α : Type) where
  | ok (v : α)
  | err (msg : GoString)
  deriving DecidableEq

/-- The part of an `*http.Response` that the program reads. -/
structure Response where
  /-- The status code of `resp.StatusCode`. -/
  StatusCode : Nat
  /-- The response headers of `resp.Header`. -/
  Header : Header
  /-- The bytes that reading `resp.Body` to its end yields. -/
  Body : GoString
  deriving DecidableEq

/-- The outcomes of the calls a handler makes to the outside world. -/
structure World where
  /-- The outcome of `net.DialTimeout("tcp", addr, 10*time.Second)`. -/
  dial : GoString → Res Conn
  /-- Is `none` when the response writer does not implement `http.Hijacker`
  (the type assertion of line 65 gives `ok = false`); otherwise the outcome of
  `hijacker.Hijack()`, whose connection is nil when the error is not. -/
  hijacker : Option (Res Conn)
  /-- The outcome of `http.DefaultTransport.RoundTrip(r)`. -/
  roundTrip : Request → Res Response

deriving instance DecidableEq for Request

/-- A call a handler makes to the outside world. -/
inductive Effect where
  /-- The call `net.DialTimeout("tcp", addr, ...)` and its outcome. -/
  | dial (addr : GoString) (result : Res Conn)
  /-- The call `hijacker.Hijack()`. -/
  | hijack
  /-- The statement `go transfer(destination, source)`. -/
  | goTransfer (destination source : Option Conn)
  /-- The call `http.DefaultTransport.RoundTrip(r)`. -/
  | roundTrip (r : Request)
  /-- The deferred `resp.Body.Close()`. -/
  | bodyClose
  deriving DecidableEq

/-- What a handler has done when it returns: the state of the response writer
and the calls it made, in program order. -/
structure Outcome where
  /-- The response writer. -/
  w : ResponseWriter
  /-- The calls to the outside world. -/
  effects : List Effect
  deriving DecidableEq

/-- An operation on connections performed by a relay task. -/
inductive ConnOp where
  /-- The call `io.Copy(destination, source)`. -/
  | copy (destination source : Conn)
  /-- The call `c.Close()`. -/
  | close (c : Conn)
  deriving DecidableEq

/-- The function `transfer(destination, source)`: copies from `source` to `destination`,
then the deferred calls run in reverse order, closing `source` and then
`destination`.  Called with a nil interface value the task panics on the nil
dereference: the result is `none`. -/
def transfer (destination source : Option Conn) : Option (List ConnOp) :=
  match destination, source with
  | some d, some s => some [ConnOp.copy d s, ConnOp.close s, ConnOp.close d]
  | _, _ => none

/-- Is true when the effect is a relay task that received the connection `c`
(and so closes it when its copy ends). -/
def Effect.relays (c : Conn) : Effect → Bool
  | Effect.goTransfer d s => decide (d = some c ∨ s = some c)
  | _ => false

/-- The connection an effect opened, if any. -/
def Effect.opened : Effect → Option Conn
  | Effect.dial _ (Res.ok c) => some c
  | _ => none

/-- The destination connections that were dialed successfully and handed to no
relay task.  The handlers never call `Close` themselves, so these are the
connections left open when the handler returns. -/
def leakedConns (es : List Effect) : List Conn :=
  (es.filterMap Effect.opened).filter (fun c => !(es.any (Effect.relays c)))

/-- The relay tasks started, as the pairs `(destination, source)` they were given. -/
def transfersStarted (es : List Effect) : List (Option Conn × Option Conn) :=
  es.filterMap (fun e => match e with
    | Effect.goTransfer d s => some (d, s)
    | _ => none)

/-! ## The handlers -/

/-- The value both handlers give the `Proxy-Authenticate` header (lines 54 and 86). -/
def challenge : GoString := "basic realm=proxy".toList

/-- The function `handleTunneling(w, r)`. -/
def handleTunneling (unicodeLower : GoString → GoString) (authVar : GoString) (world : World)
    (w : ResponseWriter) (r : Request) : Outcome :=
  let err := authCheck unicodeLower authVar r
  if err ≠ [] then
    let w1 := { w with header := w.header.Set "Proxy-Authenticate".toList challenge }
    { w := Error w1 err StatusProxyAuthRequired, effects := [] }
  else
    match world.dial r.Host with
    | Res.err e =>
      { w := Error w e StatusServiceUnavailable, effects := [Effect.dial r.Host (Res.err e)] }
    | Res.ok destConn =>
      let w1 := w.WriteHeader StatusOK
      match world.hijacker with
      | none =>
        { w := Error w1 "Hijacking not supported".toList StatusInternalServerError,
          effects := [Effect.dial r.Host (Res.ok destConn)] }
      | some hijacked =>
        let clientConn : Option Conn :=
          match hijacked with
          | Res.ok c => some c
          | Res.err _ => none
        let w2 :=
          match hijacked with
          | Res.ok _ => w1
          | Res.err e => Error w1 e StatusServiceUnavailable
        { w := w2,
          effects := [Effect.dial r.Host (Res.ok destConn), Effect.hijack,
            Effect.goTransfer (some destConn) clientConn,
            Effect.goTransfer clientConn (some destConn)] }

/-- The function `copyHeader(dst, src)`: the entries of `src` are visited in list order,
the values of each entry in slice order; the result is `dst` afterwards. -/
def copyHeader (dst src : Header) : Header :=
  src.foldl (fun d kv => kv.2.foldl (fun d1 v => d1.Add kv.1 v) d) dst

/-- The function `handleHTTP(w, r)`. -/
def handleHTTP (unicodeLower : GoString → GoString) (authVar : GoString) (world : World)
    (w : ResponseWriter) (r : Request) : Outcome :=
  let err := authCheck unicodeLower authVar r
  if err ≠ [] then
    let w1 := { w with header := w.header.Set "Proxy-Authenticate".toList challenge }
    { w := Error w1 err StatusProxyAuthRequired, effects := [] }
  else
    match world.roundTrip r with
    | Res.err e =>
      { w := Error w e StatusServiceUnavailable, effects := [Effect.roundTrip r] }
    | Res.ok resp =>
      let w1 := { w with header := copyHeader w.header resp.Header }
      let w2 := w1.WriteHeader resp.StatusCode
      let w3 := w2.Write resp.Body
      { w := w3, effects := [Effect.roundTrip r, Effect.bodyClose] }

/-! ## main -/

/-- The function `getEnvOrFail(env)`.  `getenv` is `os.Getenv`; the result `none` stands for
`log.Fatalf`, which ends the process. -/
def getEnvOrFail (getenv : GoString → GoString) (env : GoString) : Option GoString :=
  let val := getenv env
  if val.length = 0 then none else some val

/-- The closure `hostPolicy` of `main`, with the captured variable `allowedHost`
as first argument (the context argument is not used by the closure).  The
result is the error: `none` for nil, `some msg` for the error whose text is
`msg`. -/
def hostPolicy (allowedHost : GoString) (host : GoString) : Option GoString :=
  if host = allowedHost then none
  else some ("acme/autocert: only ".toList ++ allowedHost ++ " host is allowed".toList)

/-- The host policy `main` installs: `allowedHost` is `getEnvOrFail("HOST")`,
and there is no policy when that call ends the process. -/
def mainHostPolicy (getenv : GoString → GoString) : Option (GoString → Option GoString) :=
  match getEnvOrFail getenv "HOST".toList with
  | none => none
  | some allowedHost => some (hostPolicy allowedHost)

/-- The handler `main` installs on the TLS listener (lines 143-149). -/
def serve (unicodeLower : GoString → GoString) (authVar : GoString) (world : World)
    (w : ResponseWriter) (r : Request) : Outcome :=
  if r.Method = "CONNECT".toList then handleTunneling unicodeLower authVar world w r
  else handleHTTP unicodeLower authVar world w r

/-! ## packages unicode/utf8 and unicode: the non-ASCII path of strings.ToLower -/

/-- The constant `utf8.RuneError`, U+FFFD. -/
def RuneError : Nat := 0xFFFD

/-- The function `utf8.DecodeRuneInString(s)` on the byte values of a non-empty `s`: the
first rune and its width in bytes; a byte that starts no well-formed encoding
gives `(RuneError, 1)`. -/
def decodeFirst (s : List Nat) : Nat × Nat :=
  match s with
  | [] => (RuneError, 0)
  | b0 :: t =>
    if b0 < 0x80 then (b0, 1)
    else if 0xC2 ≤ b0 ∧ b0 ≤ 0xDF then
      match t with
      | b1 :: _ =>
        if 0x80 ≤ b1 ∧ b1 ≤ 0xBF then ((b0 - 0xC0) * 64 + (b1 - 0x80), 2) else (RuneError, 1)
      | [] => (RuneError, 1)
    else if 0xE0 ≤ b0 ∧ b0 ≤ 0xEF then
      match t with
      | b1 :: b2 :: _ =>
        let lo := if b0 = 0xE0 then 0xA0 else 0x80
        let hi := if b0 = 0xED then 0x9F else 0xBF
        if lo ≤ b1 ∧ b1 ≤ hi ∧ 0x80 ≤ b2 ∧ b2 ≤ 0xBF then
          (((b0 - 0xE0) * 64 + (b1 - 0x80)) * 64 + (b2 - 0x80), 3)
        else (RuneError, 1)
      | _ => (RuneError, 1)
    else if 0xF0 ≤ b0 ∧ b0 ≤ 0xF4 then
      match t with
      | b1 :: b2 :: b3 :: _ =>
        let lo := if b0 = 0xF0 then 0x90 else 0x80
        let hi := if b0 = 0xF4 then 0x8F else 0xBF
        if lo ≤ b1 ∧ b1 ≤ hi ∧ 0x80 ≤ b2 ∧ b2 ≤ 0xBF ∧ 0x80 ≤ b3 ∧ b3 ≤ 0xBF then
          ((((b0 - 0xF0) * 64 + (b1 - 0x80)) * 64 + (b2 - 0x80)) * 64 + (b3 - 0x80), 4)
        else (RuneError, 1)
      | _ => (RuneError, 1)
    else (RuneError, 1)

/-- The runes a `range` loop over a string yields, from its byte values.  Each
step consumes at least one byte, so `fuel = len(s)` steps reach the end. -/
def decodeRunes : Nat → List Nat → List Nat
  | 0, _ => []
  | _ + 1, [] => []
  | fuel + 1, b0 :: t =>
    (decodeFirst (b0 :: t)).1 :: decodeRunes fuel ((b0 :: t).drop (decodeFirst (b0 :: t)).2)

/-- The function `utf8.AppendRune`: the UTF-8 encoding of a rune, as byte values; a
surrogate or a value above U+10FFFF is encoded as `RuneError`. -/
def encodeRune (r : Nat) : List Nat :=
  if r < 0x80 then [r]
  else if r < 0x800 then [0xC0 + r / 64, 0x80 + r % 64]
  else if (0xD800 ≤ r ∧ r ≤ 0xDFFF) ∨ 0x10FFFF < r then [0xEF, 0xBF, 0xBD]
  else if r < 0x10000 then [0xE0 + r / 4096, 0x80 + r / 64 % 64, 0x80 + r % 64]
  else [0xF0 + r / 262144, 0x80 + r / 4096 % 64, 0x80 + r / 64 % 64, 0x80 + r % 64]

/-- The function `unicode.ToLower(r)`: the ASCII rule for `r ≤ unicode.MaxASCII`, and the
lower-case mapping of the table `unicode.CaseRanges`, here the argument `table`,
for every other rune. -/
def toLowerRune (table : Nat → Nat) (r : Nat) : Nat :=
  if r ≤ 0x7F then (if 65 ≤ r ∧ r ≤ 90 then r + 32 else r) else table r

/-- The function `strings.Map(unicode.ToLower, s)`, which `strings.ToLower` returns for a
string with a non-ASCII byte: every rune of `s` is mapped and encoded again
(an ill-formed byte counts as the rune `RuneError`). -/
def MapToLower (table : Nat → Nat) (s : GoString) : GoString :=
  ((decodeRunes s.length (s.map Char.toNat)).flatMap
    (fun r => encodeRune (toLowerRune table r))).map Char.ofNat

/-- The lower-case mapping of `unicode.CaseRanges` for the code points U+0080 to
U+017F (Latin-1 Supplement and Latin Extended-A) and for the Kelvin and
Angstrom signs U+212A and U+212B.  It holds the entry
`{0x0130, 0x0130, d{0, -199, 0}}`: the capital I with dot above, U+0130,
lower-cases to the ASCII letter `i`, U+0069.  Code points outside these ranges
are returned as they are. -/
def latinCaseRanges (r : Nat) : Nat :=
  if (0xC0 ≤ r ∧ r ≤ 0xD6) ∨ (0xD8 ≤ r ∧ r ≤ 0xDE) then r + 32
  else if (0x100 ≤ r ∧ r ≤ 0x12F) ∨ (0x132 ≤ r ∧ r ≤ 0x137) ∨ (0x14A ≤ r ∧ r ≤ 0x177) then
    r / 2 * 2 + 1
  else if r = 0x130 then 0x69
  else if (0x139 ≤ r ∧ r ≤ 0x148) ∨ (0x179 ≤ r ∧ r ≤ 0x17E) then (r + 1) / 2 * 2
  else if r = 0x178 then 0xFF
  else if r = 0x212A then 0x6B
  else if r = 0x212B then 0xE5
  else r

/-- The scheme token is `basic` ignoring letter case: it has five bytes, and
each is the letter of `basic` at its place, in lower or in upper case. -/
def isBasicIgnoringCase (token : GoString) : Bool :=
  match token with
  | [c1, c2, c3, c4, c5] =>
    decide ((c1 = 'b' ∨ c1 = 'B') ∧ (c2 = 'a' ∨ c2 = 'A') ∧ (c3 = 's' ∨ c3 = 'S') ∧
      (c4 = 'i' ∨ c4 = 'I') ∧ (c5 = 'c' ∨ c5 = 'C'))
  | _ => false

/-- The scheme token `BAS` U+0130 `C`: the five letters of `BASIC` with the
capital I with dot above, whose UTF-8 encoding is the bytes C4 B0, for the I. -/
def dottedScheme : GoString := ['B', 'A', 'S', Char.ofNat 0xC4, Char.ofNat 0xB0, 'C']

/-! ## Definitions used in the statements -/

/-- The function `strings.Join(parts, sep)` for a one-byte separator. -/
def Join (sep : Char) : List GoString → GoString
  | [] => []
  | [a] => a
  | a :: b :: r => a ++ sep :: Join sep (b :: r)

/-- The entry as the loop of `authCheck` reads it: an entry without colon is
taken whole; of an entry with a colon only the first two colon-separated parts
are compared (`pair[0]` and `pair[1]`), whatever follows a second colon is
never looked at. -/
def comparedPart (userPass : GoString) : GoString :=
  match Split userPass ':' with
  | [] => []
  | [a] => a
  | a :: b :: _ => a ++ ':' :: b

/-- The matching policy of section 4.1 of the specification, in its words: an
entry with no username (no colon) matches when the payload has no username
either and the two secrets are equal; an entry with a username (the text before
its first colon) matches when the payload has a username and both the usernames
and the secrets (the text after the first colon) are equal. -/
def specEntryMatches (entry payload : GoString) : Bool :=
  match cut ':' entry, cut ':' payload with
  | none, none => decide (payload = entry)
  | some (user, secret), some (login, password) => decide (login = user ∧ password = secret)
  | _, _ => false

/-- The (key, value) pairs of a header map, each key paired with each of its values. -/
def Header.pairs (h : Header) : List (GoString × GoString) :=
  h.flatMap (fun kv => kv.2.map (fun v => (kv.1, v)))

/-- The inner loop of `copyHeader` (lines 105-107) for one key. -/
def addAll (d : Header) (k : GoString) (vv : List GoString) : Header :=
  vv.foldl (fun d1 v => d1.Add k v) d

/-- The header map `http.Error` leaves in the writer. -/
def errorHeader (h : Header) : Header :=
  (h.Set "Content-Type".toList "text/plain; charset=utf-8".toList).Set
    "X-Content-Type-Options".toList "nosniff".toList

/-- What both handlers do with a request that `authCheck` rejects with reason
`m` (lines 53-57 and 85-89). -/
def rejection (w : ResponseWriter) (m : GoString) : Outcome :=
  { w := Error { w with header := w.header.Set "Proxy-Authenticate".toList challenge } m
      StatusProxyAuthRequired,
    effects := [] }

/-! ## Concrete worlds, requests and headers -/

/-- A world in which every destination is unreachable and the response writer
cannot be hijacked. -/
def deadWorld : World :=
  { dial := fun _ => Res.err "dial tcp: i/o timeout".toList,
    hijacker := none,
    roundTrip := fun _ => Res.err "no route to host".toList }

/-- A world in which the destination accepts the connection (connection 7) and
the response writer does not implement `http.Hijacker`. -/
def noHijackerWorld : World :=
  { dial := fun _ => Res.ok 7,
    hijacker := none,
    roundTrip := fun _ => Res.err "unused".toList }

/-- A world in which the destination accepts the connection (connection 7) and
`Hijack()` returns an error. -/
def failedHijackWorld : World :=
  { dial := fun _ => Res.ok 7,
    hijacker := some (Res.err "http: connection has been hijacked".toList),
    roundTrip := fun _ => Res.err "unused".toList }

/-- An authorized `CONNECT example.com:443` (authentication is disabled). -/
def connectRequest : Request := requestNoAuth "CONNECT".toList "example.com:443".toList

/-- The run of `handleTunneling` on `connectRequest` when the writer cannot be hijacked. -/
def noHijackerRun : Outcome :=
  handleTunneling id [] noHijackerWorld ResponseWriter.fresh connectRequest

/-- The run of `handleTunneling` on `connectRequest` when `Hijack()` fails. -/
def failedHijackRun : Outcome :=
  handleTunneling id [] failedHijackWorld ResponseWriter.fresh connectRequest

/-- A response header map with a two-valued key, for the witness of claim C6. -/
def sampleResponseHeader : Header :=
  [("Set-Cookie".toList, ["a=1".toList, "b=2".toList]), ("Via".toList, ["1.1 origin".toList])]

/-! ## Lemmas on the string functions -/

theorem cut_eq_none_iff (sep : Char) (s : GoString) : cut sep s = none ↔ sep ∉ s := by
  induction s with
  | nil => simp [cut]
  | cons c t ih =>
    by_cases h : c = sep
    · simp [cut, h]
    · have h2 : ¬ sep = c := fun e => h e.symm
      cases hc : cut sep t with
      | none =>
        have := ih.mp hc
        simp [cut, h, hc, h2, this]
      | some p =>
        have hm : ¬ sep ∉ t := fun hn => by
          have := ih.mpr hn
          rw [hc] at this
          cases this
        simp only [not_not] at hm
        simp [cut, h, hc, hm]

theorem cut_eq_some_iff (sep : Char) (s a b : GoString) :
    cut sep s = some (a, b) ↔ s = a ++ sep :: b ∧ sep ∉ a := by
  induction s generalizing a with
  | nil => simp [cut]
  | cons c t ih =>
    by_cases h : c = sep
    · subst h
      constructor
      · intro hc
        simp [cut] at hc
        obtain ⟨rfl, rfl⟩ := hc
        simp
      · rintro ⟨he, hn⟩
        cases a with
        | nil =>
          simp at he
          simp [cut, he]
        | cons x a' =>
          simp at he
          exact absurd (by simp [he.1]) hn
    · constructor
      · intro hc
        cases hct : cut sep t with
        | none => simp [cut, h, hct] at hc
        | some p =>
          obtain ⟨a', b'⟩ := p
          simp [cut, h, hct] at hc
          obtain ⟨rfl, rfl⟩ := hc
          obtain ⟨e1, e2⟩ := (ih a').mp hct
          refine ⟨by simp [e1], ?_⟩
          simp only [List.mem_cons, not_or]
          exact ⟨fun e => h e.symm, e2⟩
      · rintro ⟨he, hn⟩
        cases a with
        | nil =>
          simp at he
          exact absurd he.1 h
        | cons x a' =>
          simp at he
          obtain ⟨rfl, rfl⟩ := he
          simp only [List.mem_cons, not_or] at hn
          have := (ih a').mpr ⟨rfl, hn.2⟩
          simp [cut, h, this]

theorem SplitN_two (s : GoString) (sep : Char) :
    SplitN s sep 2 = match cut sep s with
      | none => [s]
      | some (a, b) => [a, b] := by
  cases h : cut sep s with
  | none => simp [SplitN, h]
  | some p => obtain ⟨a, b⟩ := p; simp [SplitN, h]

theorem SplitN_two_of_not_mem (s : GoString) (sep : Char) (h : sep ∉ s) :
    SplitN s sep 2 = [s] := by
  rw [SplitN_two, (cut_eq_none_iff sep s).mpr h]

theorem SplitN_two_of_append (a b : GoString) (sep : Char) (h : sep ∉ a) :
    SplitN (a ++ sep :: b) sep 2 = [a, b] := by
  rw [SplitN_two, (cut_eq_some_iff sep _ a b).mpr ⟨rfl, h⟩]

theorem canonical_proxy_authorization :
    CanonicalMIMEHeaderKey "Proxy-Authorization".toList = "Proxy-Authorization".toList := by
  decide

theorem authCheck_of_nonempty (unicodeLower : GoString → GoString) (authVar : GoString)
    (r : Request) (hne : authVar ≠ []) :
    authCheck unicodeLower authVar r =
      (let authHeader := SplitN (r.Header.Get "Proxy-Authorization".toList) ' ' 2
       if authHeader.length ≠ 2 ∨ ToLower unicodeLower (idx authHeader 0) ≠ "basic".toList then
         msgAuthRequired
       else
         match DecodeString (idx authHeader 1) with
         | none => msgInvalidHeader
         | some payload => authLoop (SplitN payload ':' 2) (Split authVar ';')) := by
  have : authVar.length ≠ 0 := by simpa using hne
  simp only [authCheck, this, if_false]

/-- The result of `authCheck` on a header value without any space. -/
theorem authCheck_no_space (unicodeLower : GoString → GoString) (authVar : GoString)
    (r : Request) (hne : authVar ≠ [])
    (h : ' ' ∉ r.Header.Get "Proxy-Authorization".toList) :
    authCheck unicodeLower authVar r = msgAuthRequired := by
  rw [authCheck_of_nonempty _ _ _ hne, SplitN_two_of_not_mem _ _ h]
  simp

/-- The result of `authCheck` on a header value `scheme ++ " " ++ x`. -/
theorem authCheck_scheme_cred (unicodeLower : GoString → GoString) (authVar : GoString)
    (r : Request) (hne : authVar ≠ []) (scheme x : GoString)
    (hv : r.Header.Get "Proxy-Authorization".toList = scheme ++ ' ' :: x)
    (hs : ' ' ∉ scheme) :
    authCheck unicodeLower authVar r =
      if ToLower unicodeLower scheme ≠ "basic".toList then msgAuthRequired
      else
        match DecodeString x with
        | none => msgInvalidHeader
        | some payload => authLoop (SplitN payload ':' 2) (Split authVar ';') := by
  rw [authCheck_of_nonempty _ _ _ hne, hv, SplitN_two_of_append _ _ _ hs]
  simp [idx]

/-! ## The authentication gate: empty set, missing and malformed headers -/

/-- Claim C3: with an empty credential specification `authCheck` returns the
empty string (authorized) for every request, whatever headers it carries. -/
theorem authCheck_empty_set_authorizes (unicodeLower : GoString → GoString) (r : Request) :
    authCheck unicodeLower [] r = [] := by
  simp [authCheck]

theorem asciiLower_eq_b (c : Char) : asciiLower c = 'b' ↔ c = 'b' ∨ c = 'B' := by
  unfold asciiLower
  by_cases h : 65 ≤ c.toNat ∧ c.toNat ≤ 90
  · rw [if_pos h]
    obtain ⟨h1, h2⟩ := h
    have hc := Char.ofNat_toNat c
    generalize c.toNat = n at h1 h2 hc ⊢
    subst hc
    interval_cases n <;> decide
  · rw [if_neg h]
    constructor
    · exact Or.inl
    · rintro (e | e)
      · exact e
      · subst e
        exact absurd (by decide) h

theorem asciiLower_eq_a (c : Char) : asciiLower c = 'a' ↔ c = 'a' ∨ c = 'A' := by
  unfold asciiLower
  by_cases h : 65 ≤ c.toNat ∧ c.toNat ≤ 90
  · rw [if_pos h]
    obtain ⟨h1, h2⟩ := h
    have hc := Char.ofNat_toNat c
    generalize c.toNat = n at h1 h2 hc ⊢
    subst hc
    interval_cases n <;> decide
  · rw [if_neg h]
    constructor
    · exact Or.inl
    · rintro (e | e)
      · exact e
      · subst e
        exact absurd (by decide) h

theorem asciiLower_eq_s (c : Char) : asciiLower c = 's' ↔ c = 's' ∨ c = 'S' := by
  unfold asciiLower
  by_cases h : 65 ≤ c.toNat ∧ c.toNat ≤ 90
  · rw [if_pos h]
    obtain ⟨h1, h2⟩ := h
    have hc := Char.ofNat_toNat c
    generalize c.toNat = n at h1 h2 hc ⊢
    subst hc
    interval_cases n <;> decide
  · rw [if_neg h]
    constructor
    · exact Or.inl
    · rintro (e | e)
      · exact e
      · subst e
        exact absurd (by decide) h

theorem asciiLower_eq_i (c : Char) : asciiLower c = 'i' ↔ c = 'i' ∨ c = 'I' := by
  unfold asciiLower
  by_cases h : 65 ≤ c.toNat ∧ c.toNat ≤ 90
  · rw [if_pos h]
    obtain ⟨h1, h2⟩ := h
    have hc := Char.ofNat_toNat c
    generalize c.toNat = n at h1 h2 hc ⊢
    subst hc
    interval_cases n <;> decide
  · rw [if_neg h]
    constructor
    · exact Or.inl
    · rintro (e | e)
      · exact e
      · subst e
        exact absurd (by decide) h

theorem asciiLower_eq_c (c : Char) : asciiLower c = 'c' ↔ c = 'c' ∨ c = 'C' := by
  unfold asciiLower
  by_cases h : 65 ≤ c.toNat ∧ c.toNat ≤ 90
  · rw [if_pos h]
    obtain ⟨h1, h2⟩ := h
    have hc := Char.ofNat_toNat c
    generalize c.toNat = n at h1 h2 hc ⊢
    subst hc
    interval_cases n <;> decide
  · rw [if_neg h]
    constructor
    · exact Or.inl
    · rintro (e | e)
      · exact e
      · subst e
        exact absurd (by decide) h

theorem map_asciiLower_eq_basic_iff (token : GoString) :
    token.map asciiLower = "basic".toList ↔ isBasicIgnoringCase token = true := by
  match token with
  | [] => simp [isBasicIgnoringCase]
  | [_] => simp [isBasicIgnoringCase]
  | [_, _] => simp [isBasicIgnoringCase]
  | [_, _, _] => simp [isBasicIgnoringCase]
  | [_, _, _, _] => simp [isBasicIgnoringCase]
  | [c1, c2, c3, c4, c5] =>
    simp [isBasicIgnoringCase, asciiLower_eq_b, asciiLower_eq_a, asciiLower_eq_s,
      asciiLower_eq_i, asciiLower_eq_c]
  | _ :: _ :: _ :: _ :: _ :: _ :: _ => simp [isBasicIgnoringCase]

theorem all_ascii_of_isBasicIgnoringCase (token : GoString)
    (h : isBasicIgnoringCase token = true) :
    token.all (fun c => decide (c.toNat < 128)) = true := by
  match token with
  | [] => simp [isBasicIgnoringCase] at h
  | [_] => simp [isBasicIgnoringCase] at h
  | [_, _] => simp [isBasicIgnoringCase] at h
  | [_, _, _] => simp [isBasicIgnoringCase] at h
  | [_, _, _, _] => simp [isBasicIgnoringCase] at h
  | [c1, c2, c3, c4, c5] =>
    simp only [isBasicIgnoringCase, decide_eq_true_eq] at h
    obtain ⟨h1, h2, h3, h4, h5⟩ := h
    rcases h1 with rfl | rfl <;> rcases h2 with rfl | rfl <;> rcases h3 with rfl | rfl <;>
      rcases h4 with rfl | rfl <;> rcases h5 with rfl | rfl <;> decide
  | _ :: _ :: _ :: _ :: _ :: _ :: _ => simp [isBasicIgnoringCase] at h

/-- On a token of ASCII bytes the test of line 26 is equality with `basic`
ignoring letter case, whatever the Unicode tables are. -/
theorem ToLower_eq_basic_iff_of_ascii (unicodeLower : GoString → GoString) (token : GoString)
    (hascii : token.all (fun c => decide (c.toNat < 128)) = true) :
    ToLower unicodeLower token = "basic".toList ↔ isBasicIgnoringCase token = true := by
  rw [ToLower, if_pos hascii]
  exact map_asciiLower_eq_basic_iff token

/-- Every token that is `basic` ignoring letter case passes the test of line 26. -/
theorem ToLower_of_isBasicIgnoringCase (unicodeLower : GoString → GoString) (token : GoString)
    (h : isBasicIgnoringCase token = true) :
    ToLower unicodeLower token = "basic".toList :=
  (ToLower_eq_basic_iff_of_ascii unicodeLower token
    (all_ascii_of_isBasicIgnoringCase token h)).mpr h

/-- Claim C4, as the code has it: with a non-empty credential specification,
whatever its entries: (1) a request whose `Proxy-Authorization` header is
absent, is empty, has no space, or has a scheme token (the text before the
first space) that `strings.ToLower` does not map to `basic`, is rejected with
"Basic authorization required"; this covers every scheme token made of ASCII
bytes that is not `basic` ignoring letter case, whatever the Unicode tables
are; (2) a header `scheme x` whose scheme is `basic` ignoring letter case, or
more generally is mapped to `basic` by `strings.ToLower`, and whose `x` the
standard base64 decoder refuses is rejected with
"Invalid Proxy-Authorization header".  Both reasons are non-empty, so neither
case is authorized. -/
theorem authCheck_missing_or_malformed (unicodeLower : GoString → GoString)
    (authVar : GoString) (r : Request) (hne : authVar ≠ []) :
    (r.Header.lookup "Proxy-Authorization".toList = [] →
        authCheck unicodeLower authVar r = msgAuthRequired) ∧
    (r.Header.Get "Proxy-Authorization".toList = [] →
        authCheck unicodeLower authVar r = msgAuthRequired) ∧
    (' ' ∉ r.Header.Get "Proxy-Authorization".toList →
        authCheck unicodeLower authVar r = msgAuthRequired) ∧
    (∀ scheme rest : GoString,
        r.Header.Get "Proxy-Authorization".toList = scheme ++ ' ' :: rest → ' ' ∉ scheme →
        ToLower unicodeLower scheme ≠ "basic".toList →
        authCheck unicodeLower authVar r = msgAuthRequired) ∧
    (∀ scheme rest : GoString,
        r.Header.Get "Proxy-Authorization".toList = scheme ++ ' ' :: rest → ' ' ∉ scheme →
        scheme.all (fun c => decide (c.toNat < 128)) = true →
        isBasicIgnoringCase scheme = false →
        authCheck unicodeLower authVar r = msgAuthRequired) ∧
    (∀ scheme x : GoString,
        r.Header.Get "Proxy-Authorization".toList = scheme ++ ' ' :: x → ' ' ∉ scheme →
        ToLower unicodeLower scheme = "basic".toList → DecodeString x = none →
        authCheck unicodeLower authVar r = msgInvalidHeader) ∧
    (∀ scheme x : GoString,
        r.Header.Get "Proxy-Authorization".toList = scheme ++ ' ' :: x → ' ' ∉ scheme →
        isBasicIgnoringCase scheme = true → DecodeString x = none →
        authCheck unicodeLower authVar r = msgInvalidHeader) ∧
    msgAuthRequired = "Basic authorization required".toList ∧
    msgInvalidHeader = "Invalid Proxy-Authorization header".toList ∧
    msgAuthRequired ≠ [] ∧ msgInvalidHeader ≠ [] := by
  refine ⟨?_, ?_, ?_, ?_, ?_, ?_, ?_, rfl, rfl, by decide, by decide⟩
  · intro h
    apply authCheck_no_space _ _ _ hne
    rw [Header.Get, canonical_proxy_authorization, h]
    simp
  · intro h
    apply authCheck_no_space _ _ _ hne
    rw [h]
    simp
  · exact authCheck_no_space _ _ _ hne
  · intro scheme rest hv hs hl
    rw [authCheck_scheme_cred _ _ _ hne scheme rest hv hs, if_pos hl]
  · intro scheme rest hv hs hascii hnot
    have hl : ToLower unicodeLower scheme ≠ "basic".toList := by
      intro e
      have := (ToLower_eq_basic_iff_of_ascii unicodeLower scheme hascii).mp e
      rw [hnot] at this
      cases this
    rw [authCheck_scheme_cred _ _ _ hne scheme rest hv hs, if_pos hl]
  · intro scheme x hv hs hl hd
    rw [authCheck_scheme_cred _ _ _ hne scheme x hv hs, if_neg (not_not.mpr hl), hd]
  · intro scheme x hv hs hb hd
    have hl := ToLower_of_isBasicIgnoringCase unicodeLower scheme hb
    rw [authCheck_scheme_cred _ _ _ hne scheme x hv hs, if_neg (not_not.mpr hl), hd]

/-- A witness of claim C4 as the code has it, on the set `alice:secret`: a
request without header and a request with the scheme `Bearer` are rejected with
"Basic authorization required"; a request `bAsIc` followed by text that is not
base64 is rejected with "Invalid Proxy-Authorization header". -/
theorem authCheck_missing_or_malformed_witness :
    "alice:secret".toList ≠ [] ∧
    authCheck id "alice:secret".toList (requestNoAuth "GET".toList "example.com".toList)
      = "Basic authorization required".toList ∧
    authCheck id "alice:secret".toList
      (requestWithAuth "GET".toList "example.com".toList "Bearer YWxpY2U6c2VjcmV0".toList)
      = "Basic authorization required".toList ∧
    authCheck id "alice:secret".toList
      (requestWithAuth "GET".toList "example.com".toList "bAsIc alice:secret".toList)
      = "Invalid Proxy-Authorization header".toList :=
  ⟨by decide,
   (authCheck_missing_or_malformed id "alice:secret".toList
      (requestNoAuth "GET".toList "example.com".toList) (by decide)).1 (by decide),
   (authCheck_missing_or_malformed id "alice:secret".toList
      (requestWithAuth "GET".toList "example.com".toList "Bearer YWxpY2U6c2VjcmV0".toList)
      (by decide)).2.2.2.2.1 "Bearer".toList "YWxpY2U6c2VjcmV0".toList
      (by decide) (by decide) (by decide) (by decide),
   (authCheck_missing_or_malformed id "alice:secret".toList
      (requestWithAuth "GET".toList "example.com".toList "bAsIc alice:secret".toList)
      (by decide)).2.2.2.2.2.2.1 "bAsIc".toList "alice:secret".toList
      (by decide) (by decide) (by decide) (by decide)⟩

/-- Claim C4 fails as stated for a scheme token that is not `basic` ignoring
letter case but that `strings.ToLower` maps to `basic`.  The token `BAS` U+0130
`C` has six bytes, two of them not ASCII, so it is not `basic` ignoring letter
case; Unicode lower-cases U+0130 to `i`, so the test of line 26 lets it pass,
and with the set `u:p` and the credentials `dTpw` (base64 of `u:p`) the request
is authorized, not rejected with "Basic authorization required". -/
theorem dotted_capital_i_scheme_is_accepted :
    isBasicIgnoringCase dottedScheme = false ∧
    ' ' ∉ dottedScheme ∧
    (requestWithAuth "GET".toList "h".toList (dottedScheme ++ " dTpw".toList)).Header.Get
      "Proxy-Authorization".toList = dottedScheme ++ ' ' :: "dTpw".toList ∧
    MapToLower latinCaseRanges dottedScheme = "basic".toList ∧
    authCheck (MapToLower latinCaseRanges) "u:p".toList
      (requestWithAuth "GET".toList "h".toList (dottedScheme ++ " dTpw".toList))
      ≠ "Basic authorization required".toList ∧
    authCheck (MapToLower latinCaseRanges) "u:p".toList
      (requestWithAuth "GET".toList "h".toList (dottedScheme ++ " dTpw".toList)) = [] := by
  decide

/-! ## The host policy -/

/-- Claim C5: for the allowed host `a` that `main` configures (the non-empty
value of `HOST`) and every requested name `h`, `hostPolicy` returns no error if
and only if `h` equals `a` exactly; for every other `h` it returns the error
"acme/autocert: only a host is allowed", which names the allowed host; in
particular the empty name is refused. -/
theorem hostPolicy_exact (getenv : GoString → GoString) (a h : GoString)
    (hcfg : getEnvOrFail getenv "HOST".toList = some a) :
    (hostPolicy a h = none ↔ h = a) ∧
    (h ≠ a → hostPolicy a h =
      some ("acme/autocert: only ".toList ++ a ++ " host is allowed".toList)) ∧
    (∀ msg, hostPolicy a h = some msg → a <:+: msg) ∧
    hostPolicy a [] ≠ none := by
  have ha : a ≠ [] := by
    intro e
    subst e
    unfold getEnvOrFail at hcfg
    by_cases hl : (getenv "HOST".toList).length = 0
    · simp [hl] at hcfg
    · simp only [hl, if_false, Option.some.injEq] at hcfg
      rw [hcfg] at hl
      exact hl rfl
  refine ⟨?_, ?_, ?_, ?_⟩
  · unfold hostPolicy
    by_cases e : h = a <;> simp [e]
  · intro e
    simp [hostPolicy, e]
  · intro msg hm
    unfold hostPolicy at hm
    by_cases e : h = a
    · simp [e] at hm
    · simp only [e, if_false, Option.some.injEq] at hm
      rw [← hm]
      exact ⟨"acme/autocert: only ".toList, " host is allowed".toList, rfl⟩
  · unfold hostPolicy
    simp [Ne.symm ha]

/-- A witness of claim C5: `HOST=proxy.example.com`, asked for `evil.example.com`. -/
theorem hostPolicy_exact_witness :
    hostPolicy "proxy.example.com".toList "proxy.example.com".toList = none ∧
    hostPolicy "proxy.example.com".toList "evil.example.com".toList =
      some "acme/autocert: only proxy.example.com host is allowed".toList ∧
    hostPolicy "proxy.example.com".toList [] ≠ none :=
  have hw := fun h => hostPolicy_exact (fun _ => "proxy.example.com".toList)
    "proxy.example.com".toList h (by decide)
  ⟨(hw _).1.mpr rfl, (hw "evil.example.com".toList).2.1 (by decide), (hw []).2.2.2⟩

/-! ## Lemmas on headers and on the response writer -/

theorem Header.lookup_store (h : Header) (k k' : GoString) (vs : List GoString) :
    (h.store k vs).lookup k' = if k = k' then vs else h.lookup k' := by
  induction h with
  | nil => simp [Header.store, Header.lookup]
  | cons p t ih =>
    obtain ⟨k0, v0⟩ := p
    by_cases h0 : k0 = k
    · subst h0
      by_cases h1 : k0 = k' <;> simp [Header.store, Header.lookup, h1]
    · by_cases h1 : k0 = k'
      · subst h1
        have : ¬ k = k0 := fun e => h0 e.symm
        simp [Header.store, Header.lookup, h0, this]
      · simp [Header.store, Header.lookup, h0, h1, ih]

theorem Error_wrote (w : ResponseWriter) (m : GoString) (code : Nat) :
    (Error w m code).wrote = w.wrote ++ [(code, errorHeader w.header)] := by
  simp [Error, ResponseWriter.Write, ResponseWriter.WriteHeader, errorHeader]

theorem Error_body (w : ResponseWriter) (m : GoString) (code : Nat) :
    (Error w m code).body = w.body ++ (m ++ ['\n']) := by
  simp [Error, ResponseWriter.Write, ResponseWriter.WriteHeader]

theorem errorHeader_lookup_challenge (h : Header) (v : GoString) :
    (errorHeader (h.Set "Proxy-Authenticate".toList v)).lookup "Proxy-Authenticate".toList
      = [v] := by
  have e1 : CanonicalMIMEHeaderKey "Proxy-Authenticate".toList = "Proxy-Authenticate".toList := by
    decide
  have e2 : CanonicalMIMEHeaderKey "Content-Type".toList = "Content-Type".toList := by decide
  have e3 : CanonicalMIMEHeaderKey "X-Content-Type-Options".toList
      = "X-Content-Type-Options".toList := by decide
  have n2 : ¬ "Content-Type".toList = "Proxy-Authenticate".toList := by decide
  have n3 : ¬ "X-Content-Type-Options".toList = "Proxy-Authenticate".toList := by decide
  rw [errorHeader, Header.Set, Header.Set, Header.Set, e1, e2, e3, Header.lookup_store,
    if_neg n3, Header.lookup_store, if_neg n2, Header.lookup_store, if_pos rfl]

theorem errorHeader_lookup_content_type (h : Header) :
    (errorHeader h).lookup "Content-Type".toList = ["text/plain; charset=utf-8".toList] := by
  have e2 : CanonicalMIMEHeaderKey "Content-Type".toList = "Content-Type".toList := by decide
  have e3 : CanonicalMIMEHeaderKey "X-Content-Type-Options".toList
      = "X-Content-Type-Options".toList := by decide
  have n3 : ¬ "X-Content-Type-Options".toList = "Content-Type".toList := by decide
  rw [errorHeader, Header.Set, Header.Set, e2, e3, Header.lookup_store, if_neg n3,
    Header.lookup_store, if_pos rfl]

theorem handleTunneling_rejected (unicodeLower : GoString → GoString) (authVar : GoString)
    (world : World) (w : ResponseWriter) (r : Request)
    (hrej : authCheck unicodeLower authVar r ≠ []) :
    handleTunneling unicodeLower authVar world w r
      = rejection w (authCheck unicodeLower authVar r) := by
  simp only [handleTunneling, rejection, if_pos hrej]

theorem handleHTTP_rejected (unicodeLower : GoString → GoString) (authVar : GoString)
    (world : World) (w : ResponseWriter) (r : Request)
    (hrej : authCheck unicodeLower authVar r ≠ []) :
    handleHTTP unicodeLower authVar world w r
      = rejection w (authCheck unicodeLower authVar r) := by
  simp only [handleHTTP, rejection, if_pos hrej]

theorem serve_rejected (unicodeLower : GoString → GoString) (authVar : GoString)
    (world : World) (w : ResponseWriter) (r : Request)
    (hrej : authCheck unicodeLower authVar r ≠ []) :
    serve unicodeLower authVar world w r
      = rejection w (authCheck unicodeLower authVar r) := by
  unfold serve
  split
  · exact handleTunneling_rejected _ _ _ _ _ hrej
  · exact handleHTTP_rejected _ _ _ _ _ hrej

theorem rejection_wrote (w : ResponseWriter) (m : GoString) (hfresh : w.wrote = []) :
    (rejection w m).w.wrote =
      [(407, errorHeader (w.header.Set "Proxy-Authenticate".toList challenge))] := by
  simp [rejection, Error_wrote, hfresh, StatusProxyAuthRequired]

/-! ## Authentication comes first -/

/-- Claim C2: for every request and for `handleTunneling`, `handleHTTP` and the
dispatching handler of `main`: when `authCheck` rejects the request with reason
`m`, the handler, called with a writer on which no header was written yet,
answers with status 407 and nothing else, a plain-text body made of `m` (and
the newline `http.Error` prints after it), and returns having made no call to
the outside world: no dial, no hijack, no relay task, no round trip. -/
theorem rejected_request_gets_407_and_nothing_else (unicodeLower : GoString → GoString)
    (authVar : GoString) (world : World) (w : ResponseWriter) (r : Request)
    (hrej : authCheck unicodeLower authVar r ≠ []) (hfresh : w.wrote = []) :
    ∀ out ∈ [handleTunneling unicodeLower authVar world w r,
             handleHTTP unicodeLower authVar world w r,
             serve unicodeLower authVar world w r],
      out.w.status = some 407 ∧ out.w.codes = [407] ∧
      out.w.body = w.body ++ (authCheck unicodeLower authVar r ++ ['\n']) ∧
      out.w.sentHeader.map (fun h => h.lookup "Content-Type".toList)
        = some ["text/plain; charset=utf-8".toList] ∧
      out.effects = [] := by
  intro out hout
  have ho : out = rejection w (authCheck unicodeLower authVar r) := by
    simp only [List.mem_cons, List.mem_singleton, List.not_mem_nil, or_false] at hout
    rcases hout with h | h | h
    · rw [h, handleTunneling_rejected _ _ _ _ _ hrej]
    · rw [h, handleHTTP_rejected _ _ _ _ _ hrej]
    · rw [h, serve_rejected _ _ _ _ _ hrej]
  subst ho
  have hw := rejection_wrote w (authCheck unicodeLower authVar r) hfresh
  refine ⟨?_, ?_, ?_, ?_, rfl⟩
  · simp [ResponseWriter.status, hw]
  · simp [ResponseWriter.codes, hw]
  · simp [rejection, Error_body]
  · simp only [ResponseWriter.sentHeader, hw, List.head?_cons, Option.map_some']
    rw [errorHeader_lookup_content_type]

/-- A witness of claim C2: a `CONNECT` without credentials while `PROXY_AUTH` is set. -/
theorem rejected_request_gets_407_and_nothing_else_witness :
    (handleTunneling id "alice:secret".toList deadWorld ResponseWriter.fresh
      (requestNoAuth "CONNECT".toList "example.com:443".toList)).w.status = some 407 ∧
    (handleTunneling id "alice:secret".toList deadWorld ResponseWriter.fresh
      (requestNoAuth "CONNECT".toList "example.com:443".toList)).effects = [] :=
  have h := rejected_request_gets_407_and_nothing_else id "alice:secret".toList deadWorld
    ResponseWriter.fresh (requestNoAuth "CONNECT".toList "example.com:443".toList)
    (by decide) rfl _ (List.mem_cons_self _ _)
  ⟨h.1, h.2.2.2.2⟩

/-! ## The challenge header -/

/-- Claim C9, as the code has it: for every request the gate rejects, in
`handleTunneling`, `handleHTTP` and the dispatching handler alike, the 407
response carries the header `Proxy-Authenticate` with the single value
`basic realm=proxy`, the scheme being written in lower case. -/
theorem rejection_carries_challenge (unicodeLower : GoString → GoString)
    (authVar : GoString) (world : World) (w : ResponseWriter) (r : Request)
    (hrej : authCheck unicodeLower authVar r ≠ []) (hfresh : w.wrote = []) :
    ∀ out ∈ [handleTunneling unicodeLower authVar world w r,
             handleHTTP unicodeLower authVar world w r,
             serve unicodeLower authVar world w r],
      out.w.status = some 407 ∧
      out.w.sentHeader.map (fun h => h.lookup "Proxy-Authenticate".toList)
        = some ["basic realm=proxy".toList] ∧
      out.w.sentHeader.map (fun h => h.Get "Proxy-Authenticate".toList)
        = some "basic realm=proxy".toList := by
  intro out hout
  have ho : out = rejection w (authCheck unicodeLower authVar r) := by
    simp only [List.mem_cons, List.mem_singleton, List.not_mem_nil, or_false] at hout
    rcases hout with h | h | h
    · rw [h, handleTunneling_rejected _ _ _ _ _ hrej]
    · rw [h, handleHTTP_rejected _ _ _ _ _ hrej]
    · rw [h, serve_rejected _ _ _ _ _ hrej]
  subst ho
  have hw := rejection_wrote w (authCheck unicodeLower authVar r) hfresh
  have e1 : CanonicalMIMEHeaderKey "Proxy-Authenticate".toList = "Proxy-Authenticate".toList := by
    decide
  refine ⟨?_, ?_, ?_⟩
  · simp [ResponseWriter.status, hw]
  · simp only [ResponseWriter.sentHeader, hw, List.head?_cons, Option.map_some']
    rw [errorHeader_lookup_challenge]
    rfl
  · simp only [ResponseWriter.sentHeader, hw, List.head?_cons, Option.map_some']
    rw [Header.Get, e1, errorHeader_lookup_challenge]
    rfl

/-- A witness of claim C9 as the code has it: a `GET` with a wrong password. -/
theorem rejection_carries_challenge_witness :
    (handleHTTP id "alice:secret".toList deadWorld ResponseWriter.fresh
      (requestWithAuth "GET".toList "example.com".toList
        "Basic YWxpY2U6d3Jvbmc=".toList)).w.sentHeader.map
      (fun h => h.Get "Proxy-Authenticate".toList) = some "basic realm=proxy".toList :=
  (rejection_carries_challenge id "alice:secret".toList deadWorld ResponseWriter.fresh
    (requestWithAuth "GET".toList "example.com".toList "Basic YWxpY2U6d3Jvbmc=".toList)
    (by decide) rfl _ (List.mem_cons_of_mem _ (List.mem_cons_self _ _))).2.2

/-- Claim C9 fails as stated: a `CONNECT` without credentials is answered 407
with `Proxy-Authenticate: basic realm=proxy`, which is not the value
`Basic realm=proxy`. -/
theorem challenge_is_not_capitalised :
    (handleTunneling id "alice:secret".toList deadWorld ResponseWriter.fresh
      (requestNoAuth "CONNECT".toList "example.com:443".toList)).w.status = some 407 ∧
    (handleTunneling id "alice:secret".toList deadWorld ResponseWriter.fresh
      (requestNoAuth "CONNECT".toList "example.com:443".toList)).w.sentHeader.map
        (fun h => h.Get "Proxy-Authenticate".toList) ≠ some "Basic realm=proxy".toList := by
  decide

/-! ## The tunnel: hijacking -/

/-- On every authorized `CONNECT` whose dial succeeds with connection `c` and
whose writer is not a hijacker, `handleTunneling` has already written status
200 when it reports the failure: the 500 is a second, ignored `WriteHeader`, and
`c` is handed to no relay task. -/
theorem handleTunneling_without_hijacker (unicodeLower : GoString → GoString)
    (authVar : GoString) (world : World) (w : ResponseWriter) (r : Request) (c : Conn)
    (hauth : authCheck unicodeLower authVar r = []) (hdial : world.dial r.Host = Res.ok c)
    (hno : world.hijacker = none) (hfresh : w.wrote = []) :
    (handleTunneling unicodeLower authVar world w r).w.status = some 200 ∧
    (handleTunneling unicodeLower authVar world w r).w.codes = [200, 500] ∧
    (handleTunneling unicodeLower authVar world w r).effects = [Effect.dial r.Host (Res.ok c)] ∧
    leakedConns (handleTunneling unicodeLower authVar world w r).effects = [c] := by
  have ho : handleTunneling unicodeLower authVar world w r =
      { w := Error (w.WriteHeader StatusOK) "Hijacking not supported".toList
          StatusInternalServerError,
        effects := [Effect.dial r.Host (Res.ok c)] } := by
    simp only [handleTunneling, hauth, hdial, hno]
    simp
  rw [ho]
  refine ⟨?_, ?_, rfl, ?_⟩
  · simp [ResponseWriter.status, Error_wrote, ResponseWriter.WriteHeader, hfresh, StatusOK]
  · simp [ResponseWriter.codes, Error_wrote, ResponseWriter.WriteHeader, hfresh, StatusOK,
      StatusInternalServerError]
  · simp [leakedConns, Effect.opened, Effect.relays]

/-- On every authorized `CONNECT` whose dial succeeds with connection `c` and
whose `Hijack()` returns an error, `handleTunneling` reports the error and then
still starts both relay tasks, each with a nil client connection. -/
theorem handleTunneling_after_failed_hijack (unicodeLower : GoString → GoString)
    (authVar : GoString) (world : World) (w : ResponseWriter) (r : Request) (c : Conn)
    (e : GoString)
    (hauth : authCheck unicodeLower authVar r = []) (hdial : world.dial r.Host = Res.ok c)
    (herr : world.hijacker = some (Res.err e)) :
    transfersStarted (handleTunneling unicodeLower authVar world w r).effects
      = [(some c, none), (none, some c)] ∧
    (handleTunneling unicodeLower authVar world w r).w = Error (w.WriteHeader StatusOK) e
      StatusServiceUnavailable := by
  simp only [handleTunneling, hauth, hdial, herr]
  simp [transfersStarted]

/-- Claim C7 fails on the code: on an authorized `CONNECT` whose dial succeeds
and whose writer cannot be hijacked, status 200 is written first (line 64), so
the client receives 200 and not 500; the 500 of line 67 is the second code
written; the body is the reason text; no relay task is started, and the dialed
connection 7 is left open. -/
theorem hijack_unsupported_answers_200_and_leaks :
    authCheck id [] connectRequest = [] ∧
    noHijackerWorld.hijacker = none ∧
    noHijackerRun.w.status = some 200 ∧
    noHijackerRun.w.codes = [200, 500] ∧
    noHijackerRun.w.body = "Hijacking not supported\n".toList ∧
    transfersStarted noHijackerRun.effects = [] ∧
    leakedConns noHijackerRun.effects = [7] := by
  decide

/-- Claim C10 fails on the code: on an authorized `CONNECT` whose dial succeeds
and whose `Hijack()` returns an error, `handleTunneling` writes the error and
does not return: both relay tasks are started with a nil client connection, on
which `transfer` panics. -/
theorem failed_hijack_still_starts_transfers :
    authCheck id [] connectRequest = [] ∧
    failedHijackWorld.hijacker = some (Res.err "http: connection has been hijacked".toList) ∧
    failedHijackRun.w.body = "http: connection has been hijacked\n".toList ∧
    failedHijackRun.effects =
      [Effect.dial "example.com:443".toList (Res.ok 7), Effect.hijack,
       Effect.goTransfer (some 7) none, Effect.goTransfer none (some 7)] ∧
    transfersStarted failedHijackRun.effects = [(some 7, none), (none, some 7)] ∧
    transfer (some 7) none = none ∧ transfer none (some 7) = none := by
  decide

/-! ## The matching loop -/

theorem Split_ne_nil (s : GoString) (sep : Char) : Split s sep ≠ [] := by
  cases s with
  | nil => simp [Split]
  | cons c t =>
    by_cases h : c = sep
    · simp [Split, h]
    · cases ht : Split t sep <;> simp [Split, h, ht]

theorem Split_eq_singleton_nil_iff (s : GoString) (sep : Char) :
    Split s sep = [[]] ↔ s = [] := by
  constructor
  · intro h
    cases s with
    | nil => rfl
    | cons c t =>
      exfalso
      by_cases hc : c = sep
      · simp [Split, hc, Split_ne_nil] at h
      · cases ht : Split t sep <;> simp [Split, hc, ht] at h
  · rintro rfl
    simp [Split]

theorem not_mem_of_mem_Split (s : GoString) (sep : Char) :
    ∀ x ∈ Split s sep, sep ∉ x := by
  induction s with
  | nil => simp [Split]
  | cons c t ih =>
    by_cases hc : c = sep
    · intro x hx
      simp only [Split, hc, if_true, List.mem_cons] at hx
      rcases hx with rfl | hx
      · simp
      · exact ih x hx
    · cases ht : Split t sep with
      | nil => exact absurd ht (Split_ne_nil t sep)
      | cons h r =>
        intro x hx
        simp only [Split, hc, if_false, ht, List.mem_cons] at hx
        rw [ht] at ih
        rcases hx with rfl | hx
        · have := ih h (List.mem_cons_self _ _)
          simp only [List.mem_cons, not_or]
          exact ⟨fun e => hc e.symm, this⟩
        · exact ih x (List.mem_cons_of_mem _ hx)

theorem Split_length (s : GoString) (sep : Char) :
    (Split s sep).length = s.count sep + 1 := by
  induction s with
  | nil => simp [Split]
  | cons c t ih =>
    by_cases hc : c = sep
    · subst hc
      simp [Split, ih]
    · cases ht : Split t sep with
      | nil => exact absurd ht (Split_ne_nil t sep)
      | cons h r =>
        rw [ht] at ih
        have : (c == sep) = false := by simpa using hc
        simp [Split, hc, ht, List.count_cons, this] at ih ⊢
        omega

theorem Join_Split (s : GoString) (sep : Char) : Join sep (Split s sep) = s := by
  induction s with
  | nil => simp [Split, Join]
  | cons c t ih =>
    by_cases hc : c = sep
    · subst hc
      cases ht : Split t c with
      | nil => exact absurd ht (Split_ne_nil t c)
      | cons h r =>
        rw [ht] at ih
        simp [Split, ht, Join, ih]
    · cases ht : Split t sep with
      | nil => exact absurd ht (Split_ne_nil t sep)
      | cons h r =>
        rw [ht] at ih
        cases r with
        | nil =>
          simp only [Join] at ih
          simp [Split, hc, ht, Join, ih]
        | cons b r' =>
          simp only [Join] at ih
          simp [Split, hc, ht, Join, ih]

theorem authLoop_eq_any (loginPair : List GoString) (entries : List GoString) :
    authLoop loginPair entries =
      if entries.any (entryAccepts loginPair) = true then [] else msgNoMatch := by
  induction entries with
  | nil => simp [authLoop]
  | cons e t ih =>
    by_cases h : entryAccepts loginPair e = true
    · simp [authLoop, h]
    · simp only [Bool.not_eq_true] at h
      simp [authLoop, h, ih]

theorem any_eq_of_perm {α : Type} (p : α → Bool) {l1 l2 : List α} (h : l1.Perm l2) :
    l1.any p = l2.any p := by
  rw [Bool.eq_iff_iff]
  simp only [List.any_eq_true]
  constructor
  · rintro ⟨x, hx, hp⟩
    exact ⟨x, h.mem_iff.mp hx, hp⟩
  · rintro ⟨x, hx, hp⟩
    exact ⟨x, h.mem_iff.mpr hx, hp⟩

theorem entryAccepts_iff (payload userPass : GoString) :
    entryAccepts (SplitN payload ':' 2) userPass = true ↔ payload = comparedPart userPass := by
  have hpieces := not_mem_of_mem_Split userPass ':'
  unfold entryAccepts comparedPart
  cases hs : Split userPass ':' with
  | nil => exact absurd hs (Split_ne_nil _ _)
  | cons a rest =>
    rw [hs] at hpieces
    have ha : ':' ∉ a := hpieces a (List.mem_cons_self _ _)
    cases rest with
    | nil =>
      simp only [List.length_singleton, if_true, decide_eq_true_eq, idx, List.getD_cons_zero]
      constructor
      · rintro ⟨hl, h0⟩
        cases hc : cut ':' payload with
        | none =>
          rw [SplitN_two, hc] at h0
          simpa using h0
        | some p =>
          obtain ⟨x, y⟩ := p
          rw [SplitN_two, hc] at hl
          simp at hl
      · rintro rfl
        rw [SplitN_two_of_not_mem _ _ ha]
        simp
    | cons b rest2 =>
      have hlen : ¬ (a :: b :: rest2).length = 1 := by simp
      simp only [hlen, if_false, decide_eq_true_eq, idx, List.getD_cons_zero,
        List.getD_cons_succ]
      constructor
      · rintro ⟨hl, h0, h1⟩
        cases hc : cut ':' payload with
        | none =>
          rw [SplitN_two, hc] at hl
          simp at hl
        | some p =>
          obtain ⟨x, y⟩ := p
          rw [SplitN_two, hc] at h0 h1
          simp only [List.getD_cons_zero, List.getD_cons_succ] at h0 h1
          subst h0
          subst h1
          exact ((cut_eq_some_iff _ _ _ _).mp hc).1
      · rintro rfl
        rw [SplitN_two_of_append _ _ _ ha]
        simp

theorem comparedPart_of_count_le_one (userPass : GoString) (h : userPass.count ':' ≤ 1) :
    comparedPart userPass = userPass := by
  have hl := Split_length userPass ':'
  have hj := Join_Split userPass ':'
  unfold comparedPart
  cases hs : Split userPass ':' with
  | nil => exact absurd hs (Split_ne_nil _ _)
  | cons a rest =>
    rw [hs] at hl hj
    cases rest with
    | nil => simpa [Join] using hj
    | cons b rest2 =>
      cases rest2 with
      | nil => simpa [Join] using hj
      | cons c r =>
        simp at hl
        omega

/-- The result of `authCheck` on a well-formed header: for a non-empty
specification and a header `scheme x` with `scheme` lower-casing to `basic`
and `x` decoding to `payload`, the request is authorized exactly when `payload`
equals the compared part of some entry, and is otherwise rejected with the
mismatch reason. -/
theorem authCheck_decoded (unicodeLower : GoString → GoString) (authVar : GoString)
    (r : Request) (hne : authVar ≠ []) (scheme x payload : GoString)
    (hv : r.Header.Get "Proxy-Authorization".toList = scheme ++ ' ' :: x)
    (hs : ' ' ∉ scheme) (hl : ToLower unicodeLower scheme = "basic".toList)
    (hd : DecodeString x = some payload) :
    authCheck unicodeLower authVar r =
      if ∃ e ∈ Split authVar ';', payload = comparedPart e then [] else msgNoMatch := by
  rw [authCheck_scheme_cred _ _ _ hne scheme x hv hs, if_neg (not_not.mpr hl), hd]
  simp only [authLoop_eq_any, List.any_eq_true, entryAccepts_iff]

/-! ## Entry order -/

/-- Claim C8: for any two credential specifications whose lists of
';'-separated entries are permutations of one another, and every request,
`authCheck` returns the same string on both: the same decision and the same
rejection reason. -/
theorem authCheck_entry_order_irrelevant (unicodeLower : GoString → GoString)
    (authVar1 authVar2 : GoString) (r : Request)
    (hperm : (Split authVar1 ';').Perm (Split authVar2 ';')) :
    authCheck unicodeLower authVar1 r = authCheck unicodeLower authVar2 r := by
  by_cases h1 : authVar1 = []
  · subst h1
    have h2 : authVar2 = [] := by
      have hs : Split ([] : GoString) ';' = [[]] := by simp [Split]
      rw [hs] at hperm
      have := List.singleton_perm.mp hperm
      exact (Split_eq_singleton_nil_iff authVar2 ';').mp this.symm
    subst h2
    rfl
  · have h2 : authVar2 ≠ [] := by
      intro e
      subst e
      have hs : Split ([] : GoString) ';' = [[]] := by simp [Split]
      rw [hs] at hperm
      have := List.perm_singleton.mp hperm
      exact h1 ((Split_eq_singleton_nil_iff authVar1 ';').mp this)
    rw [authCheck_of_nonempty _ _ _ h1, authCheck_of_nonempty _ _ _ h2]
    have key : ∀ lp, authLoop lp (Split authVar1 ';') = authLoop lp (Split authVar2 ';') := by
      intro lp
      rw [authLoop_eq_any, authLoop_eq_any, any_eq_of_perm _ hperm]
    simp only [key]

/-- A witness of claim C8: the sets `x;u:p` and `u:p;x` on the credentials `u:p`. -/
theorem authCheck_entry_order_irrelevant_witness :
    (Split "x;u:p".toList ';').Perm (Split "u:p;x".toList ';') ∧
    authCheck id "x;u:p".toList (requestWithAuth "GET".toList "h".toList "Basic dTpw".toList)
      = authCheck id "u:p;x".toList
          (requestWithAuth "GET".toList "h".toList "Basic dTpw".toList) :=
  ⟨List.Perm.swap _ _ _,
   authCheck_entry_order_irrelevant id "x;u:p".toList "u:p;x".toList
     (requestWithAuth "GET".toList "h".toList "Basic dTpw".toList) (List.Perm.swap _ _ _)⟩

/-! ## The matching policy -/

theorem specEntryMatches_iff (entry payload : GoString) :
    specEntryMatches entry payload = true ↔ payload = entry := by
  unfold specEntryMatches
  cases he : cut ':' entry with
  | none =>
    cases hp : cut ':' payload with
    | none => simp
    | some q =>
      obtain ⟨l, pw⟩ := q
      simp only [Bool.false_eq_true, false_iff]
      rintro rfl
      rw [he] at hp
      cases hp
  | some q =>
    obtain ⟨u, sec⟩ := q
    cases hp : cut ':' payload with
    | none =>
      simp only [Bool.false_eq_true, false_iff]
      rintro rfl
      rw [he] at hp
      cases hp
    | some q2 =>
      obtain ⟨l, pw⟩ := q2
      simp only [decide_eq_true_eq]
      obtain ⟨e1, e2⟩ := (cut_eq_some_iff _ _ _ _).mp he
      obtain ⟨p1, p2⟩ := (cut_eq_some_iff _ _ _ _).mp hp
      constructor
      · rintro ⟨rfl, rfl⟩
        rw [e1, p1]
      · rintro rfl
        rw [he] at hp
        simp only [Option.some.injEq, Prod.mk.injEq] at hp
        exact ⟨hp.1.symm, hp.2.symm⟩

/-- The matching policy holds on every specification whose entries contain at
most one colon each: for a header `scheme x` with `scheme` lower-casing to
`basic` and `x` decoding to `payload`, `authCheck` authorizes if and only if
some entry matches `payload` under the policy of section 4.1, that is, if and
only if `payload` is one of the entries; otherwise it returns the mismatch
reason. -/
theorem authCheck_policy_of_simple_entries (unicodeLower : GoString → GoString)
    (authVar : GoString) (r : Request) (hne : authVar ≠ [])
    (hsimple : ∀ e ∈ Split authVar ';', e.count ':' ≤ 1)
    (scheme x payload : GoString)
    (hv : r.Header.Get "Proxy-Authorization".toList = scheme ++ ' ' :: x)
    (hs : ' ' ∉ scheme) (hl : ToLower unicodeLower scheme = "basic".toList)
    (hd : DecodeString x = some payload) :
    (authCheck unicodeLower authVar r = [] ↔
      ∃ e ∈ Split authVar ';', specEntryMatches e payload = true) ∧
    (authCheck unicodeLower authVar r = [] ↔ payload ∈ Split authVar ';') ∧
    (authCheck unicodeLower authVar r ≠ [] →
      authCheck unicodeLower authVar r = "Login and/or password doesn't match".toList) := by
  have hiff : (∃ e ∈ Split authVar ';', payload = comparedPart e) ↔
      payload ∈ Split authVar ';' := by
    constructor
    · rintro ⟨e, he, hp⟩
      rw [comparedPart_of_count_le_one e (hsimple e he)] at hp
      rw [hp]
      exact he
    · intro hp
      exact ⟨payload, hp, (comparedPart_of_count_le_one payload (hsimple payload hp)).symm⟩
  have hm : msgNoMatch ≠ [] := by decide
  rw [authCheck_decoded _ _ _ hne scheme x payload hv hs hl hd]
  by_cases hex : ∃ e ∈ Split authVar ';', payload = comparedPart e
  · have hin := hiff.mp hex
    simp only [if_pos hex, true_iff, ne_eq, not_true_eq_false, false_implies, and_true]
    exact ⟨⟨payload, hin, (specEntryMatches_iff _ _).mpr rfl⟩, hin⟩
  · have hin : payload ∉ Split authVar ';' := fun h => hex (hiff.mpr h)
    simp only [if_neg hex, hm, false_iff, ne_eq, not_false_eq_true, true_implies]
    refine ⟨?_, hin, rfl⟩
    rintro ⟨e, he, hmatch⟩
    rw [specEntryMatches_iff] at hmatch
    exact hin (hmatch ▸ he)

/-- The example of the specification: the set `alice:secret` authorizes the
payload `alice:secret` and rejects the payload `alice:wrong` with the mismatch
reason. -/
theorem authCheck_policy_of_simple_entries_example :
    authCheck id "alice:secret".toList
      (requestWithAuth "GET".toList "h".toList "Basic YWxpY2U6c2VjcmV0".toList) = [] ∧
    authCheck id "alice:secret".toList
      (requestWithAuth "GET".toList "h".toList "Basic YWxpY2U6d3Jvbmc=".toList)
      = "Login and/or password doesn't match".toList :=
  ⟨((authCheck_policy_of_simple_entries id "alice:secret".toList
      (requestWithAuth "GET".toList "h".toList "Basic YWxpY2U6c2VjcmV0".toList) (by decide)
      (by decide) "Basic".toList "YWxpY2U6c2VjcmV0".toList "alice:secret".toList
      (by decide) (by decide) (by decide) (by decide)).2.1).mpr (by decide),
   (authCheck_policy_of_simple_entries id "alice:secret".toList
      (requestWithAuth "GET".toList "h".toList "Basic YWxpY2U6d3Jvbmc=".toList) (by decide)
      (by decide) "Basic".toList "YWxpY2U6d3Jvbmc=".toList "alice:wrong".toList
      (by decide) (by decide) (by decide) (by decide)).2.2 (by decide)⟩

/-- Claim C1 fails on the code for an entry whose secret contains a colon.
With the set `alice:se:cret` (user `alice`, secret `se:cret`): the payload
`alice:se:cret`, which is string-equal to the entry and matches it under the
policy, is rejected with the mismatch reason; the payload `alice:se`, which is
no entry of the set and matches none, is authorized. -/
theorem colon_in_secret_breaks_policy :
    Split "alice:se:cret".toList ';' = ["alice:se:cret".toList] ∧
    DecodeString "YWxpY2U6c2U6Y3JldA==".toList = some "alice:se:cret".toList ∧
    specEntryMatches "alice:se:cret".toList "alice:se:cret".toList = true ∧
    authCheck id "alice:se:cret".toList
      (requestWithAuth "GET".toList "h".toList "Basic YWxpY2U6c2U6Y3JldA==".toList)
      = "Login and/or password doesn't match".toList ∧
    DecodeString "YWxpY2U6c2U=".toList = some "alice:se".toList ∧
    specEntryMatches "alice:se:cret".toList "alice:se".toList = false ∧
    authCheck id "alice:se:cret".toList
      (requestWithAuth "GET".toList "h".toList "Basic YWxpY2U6c2U=".toList) = [] := by
  decide

/-! ## The header relay -/

theorem copyHeader_nil (dst : Header) : copyHeader dst [] = dst := rfl

theorem copyHeader_cons (dst : Header) (kv : GoString × List GoString) (t : Header) :
    copyHeader dst (kv :: t) = copyHeader (addAll dst kv.1 kv.2) t := rfl

theorem Header.lookup_Add (h : Header) (k v k' : GoString) :
    (h.Add k v).lookup k' =
      if CanonicalMIMEHeaderKey k = k' then h.lookup k' ++ [v] else h.lookup k' := by
  rw [Header.Add, Header.lookup_store]
  by_cases e : CanonicalMIMEHeaderKey k = k'
  · rw [if_pos e, if_pos e, e]
  · rw [if_neg e, if_neg e]

theorem lookup_addAll (d : Header) (k : GoString) (vv : List GoString) (k' : GoString) :
    (addAll d k vv).lookup k' =
      if CanonicalMIMEHeaderKey k = k' then d.lookup k' ++ vv else d.lookup k' := by
  induction vv generalizing d with
  | nil => simp [addAll]
  | cons v t ih =>
    have step : addAll d k (v :: t) = addAll (d.Add k v) k t := rfl
    rw [step, ih, Header.lookup_Add]
    by_cases e : CanonicalMIMEHeaderKey k = k'
    · simp [e]
    · simp [e]

theorem Header.lookup_of_not_mem (h : Header) (k : GoString) (hk : k ∉ h.map Prod.fst) :
    h.lookup k = [] := by
  induction h with
  | nil => rfl
  | cons p t ih =>
    obtain ⟨k0, v0⟩ := p
    simp only [List.map_cons, List.mem_cons, not_or] at hk
    have : ¬ k0 = k := fun e => hk.1 e.symm
    simp only [Header.lookup, this, if_false]
    exact ih hk.2

theorem Header.lookup_of_mem (h : Header) (k : GoString) (vs : List GoString)
    (hnd : (h.map Prod.fst).Nodup) (hm : (k, vs) ∈ h) : h.lookup k = vs := by
  induction h with
  | nil => cases hm
  | cons p t ih =>
    obtain ⟨k0, v0⟩ := p
    simp only [List.map_cons, List.nodup_cons] at hnd
    simp only [List.mem_cons, Prod.mk.injEq] at hm
    rcases hm with ⟨rfl, rfl⟩ | hm
    · simp [Header.lookup]
    · have : ¬ k0 = k := by
        rintro rfl
        exact hnd.1 (List.mem_map_of_mem Prod.fst hm)
      simp only [Header.lookup, this, if_false]
      exact ih hnd.2 hm

theorem Header.lookup_perm (h1 h2 : Header) (hp : h1.Perm h2)
    (hnd : (h2.map Prod.fst).Nodup) (k : GoString) : h1.lookup k = h2.lookup k := by
  have hnd1 : (h1.map Prod.fst).Nodup := (hp.map Prod.fst).nodup_iff.mpr hnd
  by_cases hk : k ∈ h2.map Prod.fst
  · obtain ⟨⟨k0, vs⟩, hm, rfl⟩ := List.mem_map.mp hk
    rw [Header.lookup_of_mem h2 k0 vs hnd hm,
      Header.lookup_of_mem h1 k0 vs hnd1 (hp.mem_iff.mpr hm)]
  · have hk1 : k ∉ h1.map Prod.fst := fun hmem => hk ((hp.map Prod.fst).mem_iff.mp hmem)
    rw [Header.lookup_of_not_mem h2 k hk, Header.lookup_of_not_mem h1 k hk1]

theorem lookup_copyHeader (dst src : Header) (hnd : (src.map Prod.fst).Nodup)
    (hcanon : ∀ kv ∈ src, CanonicalMIMEHeaderKey kv.1 = kv.1) (k : GoString) :
    (copyHeader dst src).lookup k = dst.lookup k ++ src.lookup k := by
  induction src generalizing dst with
  | nil => simp [copyHeader_nil, Header.lookup]
  | cons p t ih =>
    obtain ⟨k0, v0⟩ := p
    simp only [List.map_cons, List.nodup_cons] at hnd
    have hc0 : CanonicalMIMEHeaderKey k0 = k0 := hcanon (k0, v0) (List.mem_cons_self _ _)
    rw [copyHeader_cons, ih _ hnd.2 (fun kv hkv => hcanon kv (List.mem_cons_of_mem _ hkv)),
      lookup_addAll, hc0]
    by_cases e : k0 = k
    · subst e
      simp [Header.lookup, Header.lookup_of_not_mem t k0 hnd.1]
    · simp [Header.lookup, e]

theorem Header.pairs_cons (p : GoString × List GoString) (t : Header) :
    Header.pairs (p :: t) = p.2.map (fun v => (p.1, v)) ++ Header.pairs t := by
  simp [Header.pairs]

theorem pairs_store_append (h : Header) (k v : GoString) :
    (h.store k (h.lookup k ++ [v])).pairs.Perm ((k, v) :: h.pairs) := by
  induction h with
  | nil => simp [Header.store, Header.lookup, Header.pairs]
  | cons p t ih =>
    obtain ⟨k0, v0⟩ := p
    by_cases e : k0 = k
    · subst e
      simp only [Header.store, Header.lookup, if_true, Header.pairs_cons,
        List.map_append, List.map_cons, List.map_nil, List.append_assoc, List.singleton_append]
      exact List.perm_middle
    · simp only [Header.store, Header.lookup, e, if_false, Header.pairs_cons]
      exact (List.Perm.append_left _ ih).trans List.perm_middle

theorem pairs_addAll (d : Header) (k : GoString) (vv : List GoString) :
    (addAll d k vv).pairs.Perm
      (d.pairs ++ vv.map (fun v => (CanonicalMIMEHeaderKey k, v))) := by
  induction vv generalizing d with
  | nil => simp [addAll]
  | cons v t ih =>
    have step : addAll d k (v :: t) = addAll (d.Add k v) k t := rfl
    rw [step]
    refine (ih (d.Add k v)).trans ?_
    have h1 : (d.Add k v).pairs.Perm ((CanonicalMIMEHeaderKey k, v) :: d.pairs) :=
      pairs_store_append d (CanonicalMIMEHeaderKey k) v
    simp only [List.map_cons]
    exact (List.Perm.append_right _ h1).trans (by
      simp only [List.cons_append]
      exact List.perm_middle.symm)

theorem pairs_copyHeader (dst src : Header)
    (hcanon : ∀ kv ∈ src, CanonicalMIMEHeaderKey kv.1 = kv.1) :
    (copyHeader dst src).pairs.Perm (dst.pairs ++ src.pairs) := by
  induction src generalizing dst with
  | nil => simp [copyHeader_nil, Header.pairs]
  | cons p t ih =>
    obtain ⟨k0, v0⟩ := p
    have hc0 : CanonicalMIMEHeaderKey k0 = k0 := hcanon (k0, v0) (List.mem_cons_self _ _)
    rw [copyHeader_cons]
    refine (ih _ (fun kv hkv => hcanon kv (List.mem_cons_of_mem _ hkv))).trans ?_
    have h1 := pairs_addAll dst k0 v0
    rw [hc0] at h1
    have h2 : Header.pairs ((k0, v0) :: t) = v0.map (fun v => (k0, v)) ++ Header.pairs t := by
      simp [Header.pairs]
    rw [h2, ← List.append_assoc]
    exact List.Perm.append_right _ h1

theorem store_of_not_mem (h : Header) (k : GoString) (vs : List GoString)
    (hk : k ∉ h.map Prod.fst) : h.store k vs = h ++ [(k, vs)] := by
  induction h with
  | nil => rfl
  | cons p t ih =>
    obtain ⟨k0, v0⟩ := p
    simp only [List.map_cons, List.mem_cons, not_or] at hk
    have : ¬ k0 = k := fun e => hk.1 e.symm
    simp [Header.store, this, ih hk.2]

theorem store_last (h : Header) (k : GoString) (old vs : List GoString)
    (hk : k ∉ h.map Prod.fst) : (h ++ [(k, old)]).store k vs = h ++ [(k, vs)] := by
  induction h with
  | nil => simp [Header.store]
  | cons p t ih =>
    obtain ⟨k0, v0⟩ := p
    simp only [List.map_cons, List.mem_cons, not_or] at hk
    have : ¬ k0 = k := fun e => hk.1 e.symm
    simp [Header.store, this, ih hk.2]

theorem lookup_last (h : Header) (k : GoString) (old : List GoString)
    (hk : k ∉ h.map Prod.fst) : (h ++ [(k, old)]).lookup k = old := by
  induction h with
  | nil => simp [Header.lookup]
  | cons p t ih =>
    obtain ⟨k0, v0⟩ := p
    simp only [List.map_cons, List.mem_cons, not_or] at hk
    have : ¬ k0 = k := fun e => hk.1 e.symm
    simp [Header.lookup, this, ih hk.2]

theorem addAll_last (h : Header) (k : GoString) (old vv : List GoString)
    (hc : CanonicalMIMEHeaderKey k = k) (hk : k ∉ h.map Prod.fst) :
    addAll (h ++ [(k, old)]) k vv = h ++ [(k, old ++ vv)] := by
  induction vv generalizing old with
  | nil => simp [addAll]
  | cons v t ih =>
    have step : addAll (h ++ [(k, old)]) k (v :: t)
        = addAll ((h ++ [(k, old)]).Add k v) k t := rfl
    rw [step, Header.Add, hc, lookup_last h k old hk, store_last h k old _ hk, ih]
    simp

theorem addAll_new (h : Header) (k : GoString) (vv : List GoString)
    (hc : CanonicalMIMEHeaderKey k = k) (hk : k ∉ h.map Prod.fst) (hvv : vv ≠ []) :
    addAll h k vv = h ++ [(k, vv)] := by
  cases vv with
  | nil => exact absurd rfl hvv
  | cons v t =>
    have step : addAll h k (v :: t) = addAll (h.Add k v) k t := rfl
    rw [step, Header.Add, hc, Header.lookup_of_not_mem h k hk, store_of_not_mem h k _ hk,
      addAll_last h k _ t hc hk]
    simp

theorem copyHeader_append (dst src : Header)
    (hnd : (dst.map Prod.fst ++ src.map Prod.fst).Nodup)
    (hcanon : ∀ kv ∈ src, CanonicalMIMEHeaderKey kv.1 = kv.1)
    (hvals : ∀ kv ∈ src, kv.2 ≠ []) : copyHeader dst src = dst ++ src := by
  induction src generalizing dst with
  | nil => simp [copyHeader_nil]
  | cons p t ih =>
    obtain ⟨k0, v0⟩ := p
    have hc0 : CanonicalMIMEHeaderKey k0 = k0 := hcanon (k0, v0) (List.mem_cons_self _ _)
    have hv0 : v0 ≠ [] := hvals (k0, v0) (List.mem_cons_self _ _)
    have hk0 : k0 ∉ dst.map Prod.fst := by
      intro hmem
      have := (List.nodup_append.mp hnd).2.2
      exact this hmem (by simp)
    rw [copyHeader_cons]
    show copyHeader (addAll dst k0 v0) t = dst ++ (k0, v0) :: t
    rw [addAll_new dst k0 v0 hc0 hk0 hv0, ih]
    · simp
    · simpa using hnd
    · exact fun kv hkv => hcanon kv (List.mem_cons_of_mem _ hkv)
    · exact fun kv hkv => hvals kv (List.mem_cons_of_mem _ hkv)

/-- Claim C6: let `src` be a header map (distinct keys) whose keys are in
canonical MIME form, and `dst` any header map.  After `copyHeader(dst, src)`,
for every key `k`, `dst[k]` is what it held before followed by the values of
`src[k]` in their order; keys absent from `src` are unchanged; the result does
not depend on the order in which the keys of `src` are visited; with `dst`
empty, `dst[k]` ends equal to `src[k]` for every key, the (key, value) pairs of
`dst` are those of `src` with their multiplicities, and `dst` is `src` itself
when no key of `src` has an empty value list; and `handleHTTP` sends exactly
this header block on a writer whose header map starts empty.  (The embedding
passes `src` by value, so `src` cannot be changed.) -/
theorem copyHeader_relays_every_value (dst src : Header)
    (hmap : (src.map Prod.fst).Nodup)
    (hcanon : ∀ kv ∈ src, CanonicalMIMEHeaderKey kv.1 = kv.1) :
    (∀ k, (copyHeader dst src).lookup k = dst.lookup k ++ src.lookup k) ∧
    (∀ k, k ∉ src.map Prod.fst → (copyHeader dst src).lookup k = dst.lookup k) ∧
    (∀ visit : Header, visit.Perm src →
      ∀ k, (copyHeader dst visit).lookup k = (copyHeader dst src).lookup k) ∧
    (∀ k, (copyHeader [] src).lookup k = src.lookup k) ∧
    (∀ visit : Header, visit.Perm src → (copyHeader [] visit).pairs.Perm src.pairs) ∧
    ((∀ kv ∈ src, kv.2 ≠ []) → copyHeader [] src = src) ∧
    (∀ (unicodeLower : GoString → GoString) (authVar : GoString) (world : World) (r : Request)
        (status : Nat) (body : GoString),
      authCheck unicodeLower authVar r = [] →
      world.roundTrip r = Res.ok { StatusCode := status, Header := src, Body := body } →
      (handleHTTP unicodeLower authVar world ResponseWriter.fresh r).w.wrote
        = [(status, copyHeader [] src)]) := by
  refine ⟨?_, ?_, ?_, ?_, ?_, ?_, ?_⟩
  · exact lookup_copyHeader dst src hmap hcanon
  · intro k hk
    rw [lookup_copyHeader dst src hmap hcanon, Header.lookup_of_not_mem src k hk]
    simp
  · intro visit hp k
    have hmapv : (visit.map Prod.fst).Nodup := (hp.map Prod.fst).nodup_iff.mpr hmap
    have hcanonv : ∀ kv ∈ visit, CanonicalMIMEHeaderKey kv.1 = kv.1 :=
      fun kv hkv => hcanon kv (hp.mem_iff.mp hkv)
    rw [lookup_copyHeader dst src hmap hcanon, lookup_copyHeader dst visit hmapv hcanonv,
      Header.lookup_perm visit src hp hmap]
  · intro k
    rw [lookup_copyHeader [] src hmap hcanon]
    simp [Header.lookup]
  · intro visit hp
    have hcanonv : ∀ kv ∈ visit, CanonicalMIMEHeaderKey kv.1 = kv.1 :=
      fun kv hkv => hcanon kv (hp.mem_iff.mp hkv)
    have h1 := pairs_copyHeader [] visit hcanonv
    have h2 : Header.pairs ([] : Header) ++ Header.pairs visit = Header.pairs visit := by
      simp [Header.pairs]
    rw [h2] at h1
    exact h1.trans (List.Perm.flatMap_right _ hp)
  · intro hvals
    have := copyHeader_append [] src (by simpa using hmap) hcanon hvals
    simpa using this
  · intro unicodeLower authVar world r status body hauth hrt
    simp only [handleHTTP, hauth, hrt]
    simp [ResponseWriter.Write, ResponseWriter.WriteHeader, ResponseWriter.fresh]

/-- A witness of claim C6: two cookies and a `Via` value copied onto a map that
already holds a `Via` value. -/
theorem copyHeader_relays_every_value_witness :
    (copyHeader [("Via".toList, ["1.1 proxy".toList])] sampleResponseHeader).lookup "Via".toList
      = ["1.1 proxy".toList, "1.1 origin".toList] ∧
    (copyHeader [("Via".toList, ["1.1 proxy".toList])] sampleResponseHeader).lookup
      "Set-Cookie".toList = ["a=1".toList, "b=2".toList] ∧
    copyHeader [] sampleResponseHeader = sampleResponseHeader :=
  have h := copyHeader_relays_every_value [("Via".toList, ["1.1 proxy".toList])]
    sampleResponseHeader (by decide) (by decide)
  have h0 := copyHeader_relays_every_value [] sampleResponseHeader (by decide) (by decide)
  ⟨h.1 "Via".toList, h.1 "Set-Cookie".toList, h0.2.2.2.2.2.1 (by decide)⟩

end HttpsAutoProxy
